import Mathlib

/-!
Shallow embedding of the heartbeat-forging core of `yuketang-auto-study`
(files `src/yuketang_video/api.py`, `src/main.py`, `src/yuketang_video/util.py`).

Python floats are modelled as rationals (`ℚ`), machine-independent exact
arithmetic over the same operations (`+`, `*`, `min`, comparisons).  The
process-global random draws of `random.Random().normalvariate(0, variance)`
are modelled by an oracle `jitter : ℕ → ℚ` giving the successive draws.
Python's `int()` truncates toward zero; `pyInt` below reproduces that.
-/

namespace Yuketang

/-- The two event kinds emitted by `Heartbeat.make_all`
(`"heartbeat"` and `"ratechange"` in `api.py`). -/
inductive EventKind
  | heartbeat
  | ratechange
deriving DecidableEq, Repr

/-- Python `int()` applied to a rational: truncation toward zero. -/
def pyInt (q : ℚ) : ℤ := if 0 ≤ q then ⌊q⌋ else -⌊-q⌋

/-- State of a `Heartbeat` object after `__init__` (`api.py`, class `Heartbeat`):
the constructor parameters and the identifier fields extracted from
`leaf_info`.  The mutable `sequence_id` counter (initialised to `0`) is
threaded explicitly through `make_all_loop` below; `page_suffix` is the
random 4-character suffix drawn at construction time. -/
structure Heartbeat where
  interval : ℚ
  playback_rate : ℚ
  duration : ℚ
  user_id : ℤ
  course_id : ℤ
  classroom_id : ℤ
  video_id : ℤ
  sku_id : ℤ
  ccid : String
  cdn_domain : String
  page_suffix : String
deriving DecidableEq

/-- The dict returned by `Heartbeat.make_heartbeat` (`api.py`).  The `ts`
field holds the integer `int(timestamp * 1000)` (the Python code stores its
decimal string; the string round-trips with the integer). -/
structure HeartbeatDict where
  i : ℚ
  et : EventKind
  p : String
  n : String
  lob : String
  cp : ℚ
  fp : ℕ
  tp : ℕ
  sp : ℚ
  ts : ℤ
  u : ℤ
  uip : String
  c : ℤ
  v : ℤ
  skuid : ℤ
  classroomid : ℤ
  cc : String
  d : ℚ
  pg : String
  sq : ℕ
  t : String
  cards_id : ℕ
  slide : ℕ
  v_url : String
deriving DecidableEq

/-- `Heartbeat.make_heartbeat` (`api.py`).  In Python the method first
increments `self.sequence_id` and stores the incremented value in `sq`;
here the incremented value is passed explicitly as `sq`. -/
def make_heartbeat (hb : Heartbeat) (event : EventKind) (progress : ℚ)
    (timestamp : ℚ) (sq : ℕ) : HeartbeatDict :=
  { i := hb.interval
    et := event
    p := "web"
    n := hb.cdn_domain
    lob := "ykt"
    cp := progress
    fp := 0
    tp := 0
    sp := hb.playback_rate
    ts := pyInt (timestamp * 1000)
    u := hb.user_id
    uip := ""
    c := hb.course_id
    v := hb.video_id
    skuid := hb.sku_id
    classroomid := hb.classroom_id
    cc := hb.ccid
    d := hb.duration
    pg := toString hb.video_id ++ "_" ++ hb.page_suffix
    sq := sq
    t := "video"
    cards_id := 0
    slide := 0
    v_url := "" }

/-- The `while progress < self.duration` loop of `Heartbeat.make_all`
(`api.py`): each iteration sets
`progress = min(duration, progress + interval * playback_rate)`,
`timestamp += interval + jitter`, and yields a `"heartbeat"` record with the
next sequence number.  `jitter k` is the `rng.normalvariate(0, variance)`
draw of iteration `k`; `sq` is the current value of `self.sequence_id`.
When `interval * playback_rate ≤ 0` and `progress < duration` the Python
loop never terminates; that divergence domain is mapped to `[]` (all claims
assume a positive interval and rate, which keeps the embedding on the
terminating domain). -/
def make_all_loop (hb : Heartbeat) (jitter : ℕ → ℚ) (progress timestamp : ℚ)
    (sq : ℕ) : List HeartbeatDict :=
  if h : 0 < hb.interval * hb.playback_rate ∧ progress < hb.duration then
    have hlt : (⌈(hb.duration - min hb.duration (progress + hb.interval * hb.playback_rate)) /
        (hb.interval * hb.playback_rate)⌉).toNat <
        (⌈(hb.duration - progress) / (hb.interval * hb.playback_rate)⌉).toNat := by
      obtain ⟨hs, hp⟩ := h
      have hpos : 0 < (hb.duration - progress) / (hb.interval * hb.playback_rate) :=
        div_pos (by linarith) hs
      have hge1 : (1 : ℤ) ≤ ⌈(hb.duration - progress) / (hb.interval * hb.playback_rate)⌉ :=
        Int.ceil_pos.mpr hpos
      rcases le_or_lt hb.duration (progress + hb.interval * hb.playback_rate) with hc | hc
      · rw [min_eq_left hc, sub_self, zero_div, Int.ceil_zero]
        omega
      · rw [min_eq_right hc.le]
        have heq : (hb.duration - (progress + hb.interval * hb.playback_rate)) /
            (hb.interval * hb.playback_rate) =
            (hb.duration - progress) / (hb.interval * hb.playback_rate) - 1 := by
          field_simp
          ring
        rw [heq, Int.ceil_sub_one]
        omega
    make_heartbeat hb .heartbeat
        (min hb.duration (progress + hb.interval * hb.playback_rate))
        (timestamp + hb.interval + jitter 0) (sq + 1) ::
      make_all_loop hb (fun k => jitter (k + 1))
        (min hb.duration (progress + hb.interval * hb.playback_rate))
        (timestamp + hb.interval + jitter 0) (sq + 1)
  else []
termination_by (⌈(hb.duration - progress) / (hb.interval * hb.playback_rate)⌉).toNat
decreasing_by exact hlt

/-- `Heartbeat.make_all` (`api.py`), for a freshly constructed `Heartbeat`
(`self.sequence_id == 0`): if `playback_rate != 1` it first yields a
`"ratechange"` record with progress `0` at the starting timestamp (sequence
number 1), then runs the heartbeat loop.  The generator is materialised as
the list of all yielded records. -/
def make_all (hb : Heartbeat) (jitter : ℕ → ℚ) (timestamp : ℚ)
    (progress : ℚ) : List HeartbeatDict :=
  (if hb.playback_rate ≠ 1 then [make_heartbeat hb .ratechange 0 timestamp 1] else []) ++
    make_all_loop hb jitter progress timestamp
      (if hb.playback_rate ≠ 1 then 1 else 0)

/-- `itertools.batched(heartbeats, 6)` in `send_heartbeats` (`main.py`):
consecutive batches of `n` elements, the last batch possibly shorter.
(`itertools.batched` raises `ValueError` for `n < 1`; that domain is mapped
to `[]`.) -/
def batched {α : Type} (l : List α) (n : ℕ) : List (List α) :=
  if hn : 0 < n then
    match l with
    | [] => []
    | x :: xs =>
      have : ((x :: xs).drop n).length < (x :: xs).length := by
        rw [List.length_drop]
        simp only [List.length_cons]
        omega
      (x :: xs).take n :: batched ((x :: xs).drop n) n
  else []
termination_by l.length
decreasing_by exact this

/-- One pacing observation of the batch loop in `send_heartbeats`
(`main.py`): the batch, the wall-clock instant `arrival` at which the loop
reached it, and the instant `submitAt` of the first
`api.send_video_heartbeat` call for it. -/
structure SchedEvent where
  batch : List HeartbeatDict
  arrival : ℚ
  submitAt : ℚ
deriving DecidableEq

/-- The due time of a batch in `send_heartbeats` (`main.py`):
`timestamp = int(batch[-1]["ts"]) / 1000`.  Batches produced by the program
are non-empty; `batch[-1]` on an empty list (a Python `IndexError`) is
mapped to the record-less default `0`. -/
def dueTime (batch : List HeartbeatDict) : ℚ :=
  (((batch.getLast?.map (·.ts)).getD 0 : ℤ) : ℚ) / 1000

/-- The wall-clock trace of the batch loop of `send_heartbeats`
(`main.py`): for each batch it executes
`await asyncio.sleep(max(0, timestamp - time.time()))` and then calls
`api.send_video_heartbeat`.  `asyncio.sleep d` (with `d ≥ 0`) is modelled
as advancing the wall clock by exactly `d`; `delay k` models the
non-negative wall-clock time consumed by batch `k`'s submission (with its
retries) and the subsequent progress query, after which the loop reaches
the next batch. -/
def schedTrace : List (List HeartbeatDict) → ℚ → (ℕ → ℚ) → List SchedEvent
  | [], _, _ => []
  | b :: bs, now, delay =>
    ⟨b, now, now + max 0 (dueTime b - now)⟩ ::
      schedTrace bs (now + max 0 (dueTime b - now) + delay 0) (fun k => delay (k + 1))

/-- The `while True` retry loop around `api.send_video_heartbeat` in
`send_heartbeats` (`main.py`): attempt, `break` on success, otherwise log,
`await asyncio.sleep(1)` and retry.  `f j` is `true` iff the `j`-th attempt
(counting from `k`) succeeds; `h` says some attempt eventually succeeds
(without it the Python loop never exits).  Returns the pair
(number of attempts made, number of 1-second sleeps taken). -/
def retryRun (f : ℕ → Bool) (k : ℕ) (h : ∃ m, f (k + m) = true) : ℕ × ℕ :=
  if hk : f k = true then (1, 0)
  else
    have h' : ∃ m, f (k + 1 + m) = true := by
      obtain ⟨m, hm⟩ := h
      match m, hm with
      | 0, hm => exact absurd hm hk
      | m + 1, hm => exact ⟨m, by rw [Nat.add_right_comm]; exact hm⟩
    have hdec : Nat.find h' < Nat.find h := by
      have hspec : f (k + Nat.find h) = true := Nat.find_spec h
      have hne : Nat.find h ≠ 0 := by
        intro h0
        rw [h0] at hspec
        exact hk hspec
      have hle : Nat.find h' ≤ Nat.find h - 1 := Nat.find_le (by
        have harith : k + 1 + (Nat.find h - 1) = k + Nat.find h := by omega
        rw [harith]
        exact hspec)
      omega
    ((retryRun f (k + 1) h').1 + 1, (retryRun f (k + 1) h').2 + 1)
termination_by Nat.find h
decreasing_by all_goals exact hdec

/-- The prior watch-progress record returned by
`YuketangAPI.get_video_watch_progress` (`api.py`), as consumed by `main`
and `send_heartbeats` (`main.py`).  `completed` is read with `.get`
(possibly absent, hence `Option`); `last_point` and `video_length` are read
with `[...]` (their presence is assumed by the code); `watch_length` and
`rate` are read with `.get(..., 0)`. -/
structure WatchProgress where
  completed : Option ℤ
  last_point : ℚ
  video_length : ℚ
  watch_length : Option ℚ
  rate : Option ℚ

/-- Environment of one batch iteration of `send_heartbeats` (`main.py`):
the outcomes of the successive `send_video_heartbeat` attempts for the
batch (`true` = no exception), the assumption that some attempt succeeds,
and the outcome of the `get_video_watch_progress` call afterwards (`none`
models a raised exception, which the code catches and logs). -/
structure BatchEnv where
  submitResult : ℕ → Bool
  submit_ok : ∃ m, submitResult m = true
  query : Option WatchProgress

/-- The display update at the end of one batch iteration of
`send_heartbeats` (`main.py`): on a successful progress query the progress
bar postfix becomes `(watch_progress.get("watch_length", 0),
watch_progress.get("rate", 0))`; on an exception the previous display pair
is kept. -/
def updateDisplay (disp : ℚ × ℚ) (q : Option WatchProgress) : ℚ × ℚ :=
  match q with
  | some wp => (wp.watch_length.getD 0, wp.rate.getD 0)
  | none => disp

/-- The batch loop of `send_heartbeats` (`main.py`) over its per-batch
environments, threading the displayed pair: returns (number of batches
delivered, total number of submission attempts, final display pair).
Every batch is delivered (the retry loop exits only on success) and a
failed progress query leaves the display unchanged and the loop running. -/
def runBatches : List BatchEnv → (ℚ × ℚ) → ℕ × ℕ × (ℚ × ℚ)
  | [], disp => (0, 0, disp)
  | e :: rest, disp =>
    ((runBatches rest (updateDisplay disp e.query)).1 + 1,
      (retryRun e.submitResult 0 (by
        obtain ⟨m, hm⟩ := e.submit_ok
        exact ⟨m, by simpa using hm⟩)).1 +
        (runBatches rest (updateDisplay disp e.query)).2.1,
      (runBatches rest (updateDisplay disp e.query)).2.2)

/-- Outcome of the per-leaf decision in `main` (`main.py`): either the
video is skipped (`continue`, no heartbeat task is created), or a session
streams from `last_point` with the given duration. -/
inductive SessionPlan
  | skip
  | stream (last_point : ℚ) (duration : ℚ)
deriving DecidableEq

/-- The per-leaf decision of `main` (`main.py`, after the media URL is
resolved): a non-empty prior `watch_progress` dict (modelled `some wp`;
the empty dict `{}` is falsy and modelled `none`) with
`watch_progress.get("completed") == 1` causes `continue` (skip); otherwise
the session resumes from `watch_progress["last_point"]` with duration
`watch_progress["video_length"]`; without a prior record it starts at 0
with the metadata duration, replaced by the externally probed duration
when the metadata reports 0. -/
def planSession (watch_progress : Option WatchProgress)
    (media_duration probed_duration : ℚ) : SessionPlan :=
  match watch_progress with
  | some wp =>
    if wp.completed = some 1 then .skip
    else .stream wp.last_point wp.video_length
  | none => .stream 0 (if media_duration = 0 then probed_duration else media_duration)

/-- Number of heartbeat batches submitted for one video: zero when the
plan is `skip` (no task is created, `send_heartbeats` never runs),
otherwise the number of batches delivered by the batch loop. -/
def sessionSubmitCount (plan : SessionPlan) (envs : List BatchEnv)
    (disp : ℚ × ℚ) : ℕ :=
  match plan with
  | .skip => 0
  | .stream _ _ => (runBatches envs disp).1

/-- State of one per-video task created by `main` (`main.py`): `pending`
before `wrapped_send_heartbeats` acquires the semaphore, `streaming k`
while it holds a semaphore slot with `k` cooperative steps of
`send_heartbeats` left, `done` after a normal return, `failed` after an
uncaught exception. -/
inductive TaskState
  | pending
  | streaming (work : ℕ)
  | done
  | failed
deriving DecidableEq, Repr

/-- A task currently holds a slot of the `asyncio.Semaphore`. -/
def isStreaming : TaskState → Bool
  | .streaming _ => true
  | _ => false

/-- A task has reached a terminal state. -/
def isTerminal : TaskState → Bool
  | .done => true
  | .failed => true
  | _ => false

/-- Number of tasks currently in the `Streaming` state (= semaphore slots
held). -/
def streamingCount (s : List TaskState) : ℕ := s.countP isStreaming

/-- Interleaving semantics of the orchestrator of `main` (`main.py`) with
`wrap_with_async_ctx` (`util.py`): all tasks are multiplexed cooperatively
on one event loop; a pending task enters `streaming` only when fewer than
`M = max_concurrent_tasks` slots of the `asyncio.Semaphore` are held
(`async with semaphore`); a streaming task takes internal steps, finishes,
or fails with an uncaught exception — in both of the latter cases the
`async with` context manager releases the slot. -/
inductive OrchStep (M : ℕ) : List TaskState → List TaskState → Prop
  | start (s : List TaskState) (i w : ℕ) (hi : s[i]? = some .pending)
      (hM : streamingCount s < M) : OrchStep M s (s.set i (.streaming w))
  | work (s : List TaskState) (i k : ℕ) (hi : s[i]? = some (.streaming (k + 1))) :
      OrchStep M s (s.set i (.streaming k))
  | finish (s : List TaskState) (i : ℕ) (hi : s[i]? = some (.streaming 0)) :
      OrchStep M s (s.set i .done)
  | fail (s : List TaskState) (i k : ℕ) (hi : s[i]? = some (.streaming k)) :
      OrchStep M s (s.set i .failed)

/-- Reachability under the orchestrator's interleaving semantics, from the
initial state in which every created task is pending. -/
def OrchReach (M : ℕ) : List TaskState → List TaskState → Prop :=
  Relation.ReflTransGen (OrchStep M)

/-- Completion condition of `await asyncio.gather(*tasks)` in `main`
(`main.py`).  Modelled from the documented semantics of `asyncio.gather`
with the default `return_exceptions=False`: the await finishes either when
all awaitables have completed, or as soon as one task has failed — the
first raised exception is propagated immediately, without waiting for the
remaining tasks. -/
def gatherCompletes (s : List TaskState) : Prop :=
  (∀ t ∈ s, isTerminal t = true) ∨ ∃ t ∈ s, t = TaskState.failed

/-- A concrete `Heartbeat` state used for the worked examples: duration,
interval and playback rate as given, arbitrary fixed identifiers. -/
def exampleHB (D interval rate : ℚ) : Heartbeat where
  interval := interval
  playback_rate := rate
  duration := D
  user_id := 1
  course_id := 2
  classroom_id := 3
  video_id := 4
  sku_id := 5
  ccid := "cc"
  cdn_domain := "cdn.example"
  page_suffix := "ab12"

/-- A submission-outcome stub that fails on attempts 0 and 1 and succeeds
from attempt 2 on ("fails twice then succeeds"). -/
def stubTwoFailures : ℕ → Bool := fun j => decide (2 ≤ j)

/-- A concrete batch environment: submission succeeds on the third attempt,
the progress query raises. -/
def envStub : BatchEnv where
  submitResult := stubTwoFailures
  submit_ok := ⟨2, by decide⟩
  query := none

/-- A concrete prior watch-progress record that reports completion. -/
def wpDone : WatchProgress where
  completed := some 1
  last_point := 0
  video_length := 20
  watch_length := some 20
  rate := some 1

/-! ### Projection lemmas for `make_heartbeat` -/

@[simp] theorem make_heartbeat_et (hb : Heartbeat) (e : EventKind) (pr t : ℚ) (sq : ℕ) :
    (make_heartbeat hb e pr t sq).et = e := rfl

@[simp] theorem make_heartbeat_cp (hb : Heartbeat) (e : EventKind) (pr t : ℚ) (sq : ℕ) :
    (make_heartbeat hb e pr t sq).cp = pr := rfl

@[simp] theorem make_heartbeat_ts (hb : Heartbeat) (e : EventKind) (pr t : ℚ) (sq : ℕ) :
    (make_heartbeat hb e pr t sq).ts = pyInt (t * 1000) := rfl

@[simp] theorem make_heartbeat_sq (hb : Heartbeat) (e : EventKind) (pr t : ℚ) (sq : ℕ) :
    (make_heartbeat hb e pr t sq).sq = sq := rfl

/-! ### Unfolding and counting lemmas for the `make_all` loop -/

theorem make_all_loop_eq_nil (hb : Heartbeat) (jitter : ℕ → ℚ) (p t : ℚ) (sq : ℕ)
    (h : hb.duration ≤ p) : make_all_loop hb jitter p t sq = [] := by
  rw [make_all_loop.eq_def, dif_neg]
  rintro ⟨-, hp⟩
  exact absurd h (not_le.mpr hp)

theorem make_all_loop_eq_cons (hb : Heartbeat) (jitter : ℕ → ℚ) (p t : ℚ) (sq : ℕ)
    (hs : 0 < hb.interval * hb.playback_rate) (hp : p < hb.duration) :
    make_all_loop hb jitter p t sq =
      make_heartbeat hb .heartbeat (min hb.duration (p + hb.interval * hb.playback_rate))
          (t + hb.interval + jitter 0) (sq + 1) ::
        make_all_loop hb (fun k => jitter (k + 1))
          (min hb.duration (p + hb.interval * hb.playback_rate))
          (t + hb.interval + jitter 0) (sq + 1) := by
  rw [make_all_loop.eq_def, dif_pos ⟨hs, hp⟩]

/-- Number of loop iterations remaining from progress `p`:
`⌈(D - p) / step⌉` vanishes once `p` is clamped to `D`. -/
theorem ceil_count_succ (D p s : ℚ) (hs : 0 < s) (hp : p < D) :
    (⌈(D - p) / s⌉).toNat = (⌈(D - min D (p + s)) / s⌉).toNat + 1 := by
  rcases le_or_lt D (p + s) with hc | hc
  · rw [min_eq_left hc, sub_self, zero_div, Int.ceil_zero]
    have h1 : (D - p) / s ≤ 1 := by
      rw [div_le_one hs]
      linarith
    have h2 : 0 < (D - p) / s := div_pos (by linarith) hs
    have h3 : ⌈(D - p) / s⌉ ≤ 1 := Int.ceil_le.mpr (by exact_mod_cast h1)
    have h4 : (1 : ℤ) ≤ ⌈(D - p) / s⌉ := Int.ceil_pos.mpr h2
    omega
  · rw [min_eq_right hc.le]
    have heq : (D - (p + s)) / s = (D - p) / s - 1 := by
      field_simp
      ring
    rw [heq, Int.ceil_sub_one]
    have h2 : 0 < (D - p) / s := div_pos (by linarith) hs
    have h4 : (1 : ℤ) ≤ ⌈(D - p) / s⌉ := Int.ceil_pos.mpr h2
    omega

theorem ceil_count_zero (D p s : ℚ) (hs : 0 < s) (hp : D ≤ p) :
    (⌈(D - p) / s⌉).toNat = 0 := by
  have h1 : (D - p) / s ≤ 0 := div_nonpos_of_nonpos_of_nonneg (by linarith) hs.le
  have h2 : ⌈(D - p) / s⌉ ≤ 0 := Int.ceil_le.mpr (by exact_mod_cast h1)
  omega

theorem make_all_loop_length (hb : Heartbeat) (jitter : ℕ → ℚ) (p t : ℚ) (sq : ℕ)
    (hs : 0 < hb.interval * hb.playback_rate) :
    (make_all_loop hb jitter p t sq).length =
      (⌈(hb.duration - p) / (hb.interval * hb.playback_rate)⌉).toNat := by
  refine make_all_loop.induct hb
    (fun jitter p t sq => (make_all_loop hb jitter p t sq).length =
      (⌈(hb.duration - p) / (hb.interval * hb.playback_rate)⌉).toNat)
    ?_ ?_ jitter p t sq
  · intro jitter p t sq h hlt ih
    rw [make_all_loop_eq_cons hb jitter p t sq hs h.2, List.length_cons, ih,
      ceil_count_succ _ _ _ hs h.2]
  · intro jitter p t sq h
    have hp : hb.duration ≤ p := by
      by_contra hlt2
      exact h ⟨hs, not_le.mp hlt2⟩
    rw [make_all_loop_eq_nil hb jitter p t sq hp, List.length_nil,
      ceil_count_zero _ _ _ hs hp]

theorem make_all_loop_map_sq (hb : Heartbeat) (jitter : ℕ → ℚ) (p t : ℚ) (sq : ℕ)
    (hs : 0 < hb.interval * hb.playback_rate) :
    (make_all_loop hb jitter p t sq).map (·.sq) =
      List.range' (sq + 1)
        ((⌈(hb.duration - p) / (hb.interval * hb.playback_rate)⌉).toNat) := by
  refine make_all_loop.induct hb
    (fun jitter p t sq => (make_all_loop hb jitter p t sq).map (·.sq) =
      List.range' (sq + 1)
        ((⌈(hb.duration - p) / (hb.interval * hb.playback_rate)⌉).toNat))
    ?_ ?_ jitter p t sq
  · intro jitter p t sq h hlt ih
    rw [make_all_loop_eq_cons hb jitter p t sq hs h.2, List.map_cons, make_heartbeat_sq,
      ih, ceil_count_succ _ _ _ hs h.2, List.range'_succ]
  · intro jitter p t sq h
    have hp : hb.duration ≤ p := by
      by_contra hlt2
      exact h ⟨hs, not_le.mp hlt2⟩
    rw [make_all_loop_eq_nil hb jitter p t sq hp, ceil_count_zero _ _ _ hs hp]
    rfl

theorem make_all_loop_et (hb : Heartbeat) (jitter : ℕ → ℚ) (p t : ℚ) (sq : ℕ) :
    ∀ r ∈ make_all_loop hb jitter p t sq, r.et = EventKind.heartbeat := by
  refine make_all_loop.induct hb
    (fun jitter p t sq => ∀ r ∈ make_all_loop hb jitter p t sq,
      r.et = EventKind.heartbeat)
    ?_ ?_ jitter p t sq
  · intro jitter p t sq h ihlt ih
    rw [make_all_loop_eq_cons hb jitter p t sq h.1 h.2]
    intro r hr
    rcases List.mem_cons.mp hr with rfl | hr
    · rfl
    · exact ih r hr
  · intro jitter p t sq h
    rw [make_all_loop.eq_def, dif_neg h]
    intro r hr
    exact absurd hr (List.not_mem_nil r)

theorem make_all_loop_cp_le (hb : Heartbeat) (jitter : ℕ → ℚ) (p t : ℚ) (sq : ℕ) :
    ∀ r ∈ make_all_loop hb jitter p t sq, r.cp ≤ hb.duration := by
  refine make_all_loop.induct hb
    (fun jitter p t sq => ∀ r ∈ make_all_loop hb jitter p t sq, r.cp ≤ hb.duration)
    ?_ ?_ jitter p t sq
  · intro jitter p t sq h ihlt ih
    rw [make_all_loop_eq_cons hb jitter p t sq h.1 h.2]
    intro r hr
    rcases List.mem_cons.mp hr with rfl | hr
    · exact min_le_left _ _
    · exact ih r hr
  · intro jitter p t sq h
    rw [make_all_loop.eq_def, dif_neg h]
    intro r hr
    exact absurd hr (List.not_mem_nil r)

theorem make_all_loop_cp_ge (hb : Heartbeat) (jitter : ℕ → ℚ) (p t : ℚ) (sq : ℕ) :
    ∀ r ∈ make_all_loop hb jitter p t sq,
      min hb.duration (p + hb.interval * hb.playback_rate) ≤ r.cp := by
  refine make_all_loop.induct hb
    (fun jitter p t sq => ∀ r ∈ make_all_loop hb jitter p t sq,
      min hb.duration (p + hb.interval * hb.playback_rate) ≤ r.cp)
    ?_ ?_ jitter p t sq
  · intro jitter p t sq h ihlt ih
    rw [make_all_loop_eq_cons hb jitter p t sq h.1 h.2]
    intro r hr
    rcases List.mem_cons.mp hr with rfl | hr
    · exact le_of_eq (make_heartbeat_cp _ _ _ _ _).symm
    · refine le_trans (le_min (min_le_left _ _) ?_) (ih r hr)
      exact le_add_of_nonneg_right h.1.le
  · intro jitter p t sq h
    rw [make_all_loop.eq_def, dif_neg h]
    intro r hr
    exact absurd hr (List.not_mem_nil r)

theorem make_all_loop_chain_le (hb : Heartbeat) (jitter : ℕ → ℚ) (p t : ℚ) (sq : ℕ) :
    (make_all_loop hb jitter p t sq).Chain' (fun a b => a.cp ≤ b.cp) := by
  refine make_all_loop.induct hb
    (fun jitter p t sq =>
      (make_all_loop hb jitter p t sq).Chain' (fun a b => a.cp ≤ b.cp))
    ?_ ?_ jitter p t sq
  · intro jitter p t sq h ihlt ih
    rw [make_all_loop_eq_cons hb jitter p t sq h.1 h.2]
    refine List.chain'_cons'.mpr ⟨?_, ih⟩
    intro y hy
    have hmem := List.mem_of_mem_head? hy
    have hge := make_all_loop_cp_ge hb (fun k => jitter (k + 1))
      (min hb.duration (p + hb.interval * hb.playback_rate))
      (t + hb.interval + jitter 0) (sq + 1) y hmem
    refine le_trans (le_min (min_le_left _ _) ?_) hge
    exact le_add_of_nonneg_right h.1.le
  · intro jitter p t sq h
    rw [make_all_loop.eq_def, dif_neg h]
    exact List.chain'_nil

/-- Consecutive records of the heartbeat loop: each heartbeat's progress is
the predecessor's progress advanced by `interval * playback_rate`, clamped
to the duration.  Stated with the `ratechange` patch used by the amended
claim C3 (the loop itself contains no `ratechange` record, so the `if`
never fires inside the loop; it matters when a `ratechange` record is
prepended in front of the loop's output). -/
theorem make_all_loop_chain_step (hb : Heartbeat) (jitter : ℕ → ℚ) (p t : ℚ) (sq : ℕ)
    (q : ℚ) :
    (make_all_loop hb jitter p t sq).Chain' (fun a b =>
      b.cp = min hb.duration ((if a.et = EventKind.ratechange then q else a.cp) +
        hb.interval * hb.playback_rate)) := by
  refine make_all_loop.induct hb
    (fun jitter p t sq => (make_all_loop hb jitter p t sq).Chain' (fun a b =>
      b.cp = min hb.duration ((if a.et = EventKind.ratechange then q else a.cp) +
        hb.interval * hb.playback_rate)))
    ?_ ?_ jitter p t sq
  · intro jitter p t sq h ihlt ih
    rw [make_all_loop_eq_cons hb jitter p t sq h.1 h.2]
    refine List.chain'_cons'.mpr ⟨?_, ih⟩
    intro y hy
    rcases lt_or_le (min hb.duration (p + hb.interval * hb.playback_rate)) hb.duration
      with h2 | h2
    · rw [make_all_loop_eq_cons hb _ _ _ _ h.1 h2] at hy
      simp only [List.head?_cons, Option.mem_def, Option.some_inj] at hy
      subst hy
      simp
    · rw [make_all_loop_eq_nil hb _ _ _ _ h2] at hy
      simp at hy
  · intro jitter p t sq h
    rw [make_all_loop.eq_def, dif_neg h]
    exact List.chain'_nil

theorem make_all_loop_getLast (hb : Heartbeat) (jitter : ℕ → ℚ) (p t : ℚ) (sq : ℕ)
    (hs : 0 < hb.interval * hb.playback_rate) :
    p < hb.duration →
      ∃ r, (make_all_loop hb jitter p t sq).getLast? = some r ∧ r.cp = hb.duration := by
  refine make_all_loop.induct hb
    (fun jitter p t sq => p < hb.duration →
      ∃ r, (make_all_loop hb jitter p t sq).getLast? = some r ∧ r.cp = hb.duration)
    ?_ ?_ jitter p t sq
  · intro jitter p t sq h ihlt ih
    intro hp
    rw [make_all_loop_eq_cons hb jitter p t sq hs hp]
    rcases lt_or_le (min hb.duration (p + hb.interval * hb.playback_rate)) hb.duration
      with h2 | h2
    · obtain ⟨r, hr, hcp⟩ := ih h2
      refine ⟨r, ?_, hcp⟩
      rw [make_all_loop_eq_cons hb _ _ _ _ hs h2] at hr ⊢
      rw [List.getLast?_cons_cons]
      exact hr
    · rw [make_all_loop_eq_nil hb _ _ _ _ h2]
      exact ⟨_, rfl, le_antisymm (min_le_left _ _) h2⟩
  · intro jitter p t sq h
    intro hp
    exact absurd ⟨hs, hp⟩ h

/-! ### Structure of `make_all` -/

theorem make_all_eq_rate_one (hb : Heartbeat) (jitter : ℕ → ℚ) (t0 p0 : ℚ)
    (h1 : hb.playback_rate = 1) :
    make_all hb jitter t0 p0 = make_all_loop hb jitter p0 t0 0 := by
  simp [make_all, h1]

theorem make_all_eq_rate_ne (hb : Heartbeat) (jitter : ℕ → ℚ) (t0 p0 : ℚ)
    (h1 : hb.playback_rate ≠ 1) :
    make_all hb jitter t0 p0 =
      make_heartbeat hb .ratechange 0 t0 1 :: make_all_loop hb jitter p0 t0 1 := by
  simp [make_all, h1]

theorem make_all_chain_cp_le (hb : Heartbeat) (jitter : ℕ → ℚ) (t0 p0 : ℚ)
    (hD : 0 < hb.duration) (hs : 0 < hb.interval * hb.playback_rate)
    (hp0 : 0 ≤ p0) :
    (make_all hb jitter t0 p0).Chain' (fun a b => a.cp ≤ b.cp) := by
  by_cases h1 : hb.playback_rate = 1
  · rw [make_all_eq_rate_one hb jitter t0 p0 h1]
    exact make_all_loop_chain_le hb jitter p0 t0 0
  · rw [make_all_eq_rate_ne hb jitter t0 p0 h1]
    refine List.chain'_cons'.mpr ⟨?_, make_all_loop_chain_le hb jitter p0 t0 1⟩
    intro y hy
    have hmem := List.mem_of_mem_head? hy
    have hge := make_all_loop_cp_ge hb jitter p0 t0 1 y hmem
    have h0 : (0 : ℚ) ≤ min hb.duration (p0 + hb.interval * hb.playback_rate) :=
      le_min hD.le (add_nonneg hp0 hs.le)
    simp only [make_heartbeat_cp]
    exact le_trans h0 hge

/-! ### Claim theorems -/

/-- C1: for every duration `D > 0`, interval `I > 0`, playback rate `R > 0`
and start progress `p0` with `0 ≤ p0 < D`, the heartbeat sequence produced
by `Heartbeat.make_all` has non-decreasing progress values across all
records, every progress value is at most `D`, and the final record's
progress equals `D` exactly. -/
theorem C1_progress_monotone_bounded_final (hb : Heartbeat) (jitter : ℕ → ℚ)
    (t0 p0 : ℚ) (hD : 0 < hb.duration) (hI : 0 < hb.interval)
    (hR : 0 < hb.playback_rate) (hp0 : 0 ≤ p0) (hp0D : p0 < hb.duration) :
    ((make_all hb jitter t0 p0).map (·.cp)).Pairwise (· ≤ ·) ∧
    (∀ r ∈ make_all hb jitter t0 p0, r.cp ≤ hb.duration) ∧
    ∃ last, (make_all hb jitter t0 p0).getLast? = some last ∧
      last.cp = hb.duration := by
  have hs : 0 < hb.interval * hb.playback_rate := mul_pos hI hR
  refine ⟨?_, ?_, ?_⟩
  · refine List.chain'_iff_pairwise.mp ?_
    rw [List.chain'_map]
    exact make_all_chain_cp_le hb jitter t0 p0 hD hs hp0
  · intro r hr
    by_cases h1 : hb.playback_rate = 1
    · rw [make_all_eq_rate_one hb jitter t0 p0 h1] at hr
      exact make_all_loop_cp_le hb jitter p0 t0 0 r hr
    · rw [make_all_eq_rate_ne hb jitter t0 p0 h1] at hr
      rcases List.mem_cons.mp hr with rfl | hr
      · simp only [make_heartbeat_cp]
        exact hD.le
      · exact make_all_loop_cp_le hb jitter p0 t0 1 r hr
  · by_cases h1 : hb.playback_rate = 1
    · rw [make_all_eq_rate_one hb jitter t0 p0 h1]
      exact make_all_loop_getLast hb jitter p0 t0 0 hs hp0D
    · rw [make_all_eq_rate_ne hb jitter t0 p0 h1]
      obtain ⟨r, hr, hcp⟩ := make_all_loop_getLast hb jitter p0 t0 1 hs hp0D
      refine ⟨r, ?_, hcp⟩
      have hne : make_all_loop hb jitter p0 t0 1 ≠ [] := by
        rw [make_all_loop_eq_cons hb jitter p0 t0 1 hs hp0D]
        exact List.cons_ne_nil _ _
      rw [show make_heartbeat hb .ratechange 0 t0 1 :: make_all_loop hb jitter p0 t0 1 =
          [make_heartbeat hb .ratechange 0 t0 1] ++ make_all_loop hb jitter p0 t0 1
          from rfl,
        List.getLast?_append_of_ne_nil _ hne]
      exact hr

/-- Witness for C1 at `D = 12`, `I = 5`, `R = 1`, `p0 = 0`, zero jitter. -/
theorem C1_progress_monotone_bounded_final_witness :
    ((make_all (exampleHB 12 5 1) (fun _ => 0) 0 0).map (·.cp)).Pairwise (· ≤ ·) ∧
    (∀ r ∈ make_all (exampleHB 12 5 1) (fun _ => 0) 0 0,
      r.cp ≤ (exampleHB 12 5 1).duration) ∧
    ∃ last, (make_all (exampleHB 12 5 1) (fun _ => 0) 0 0).getLast? = some last ∧
      last.cp = (exampleHB 12 5 1).duration :=
  C1_progress_monotone_bounded_final (exampleHB 12 5 1) (fun _ => 0) 0 0
    (by norm_num [exampleHB]) (by norm_num [exampleHB]) (by norm_num [exampleHB])
    le_rfl (by norm_num [exampleHB])

/-- C2: for every `D > 0`, `I > 0`, `R > 0` and `0 ≤ p0 < D`, the sequence
numbers carried by the records of one run of `Heartbeat.make_all` (from a
freshly constructed `Heartbeat`, `sequence_id = 0`) are exactly
`1, 2, ..., N` with no gaps or repeats, where
`N = ⌈(D - p0) / (I * R)⌉ + (1 if R ≠ 1 else 0)`. -/
theorem C2_sequence_numbers_exact (hb : Heartbeat) (jitter : ℕ → ℚ)
    (t0 p0 : ℚ) (hD : 0 < hb.duration) (hI : 0 < hb.interval)
    (hR : 0 < hb.playback_rate) (hp0 : 0 ≤ p0) (hp0D : p0 < hb.duration) :
    (make_all hb jitter t0 p0).map (·.sq) =
      List.range' 1
        ((⌈(hb.duration - p0) / (hb.interval * hb.playback_rate)⌉).toNat +
          if hb.playback_rate ≠ 1 then 1 else 0) := by
  have hs : 0 < hb.interval * hb.playback_rate := mul_pos hI hR
  by_cases h1 : hb.playback_rate = 1
  · rw [make_all_eq_rate_one hb jitter t0 p0 h1,
      make_all_loop_map_sq hb jitter p0 t0 0 hs]
    simp [h1]
  · rw [make_all_eq_rate_ne hb jitter t0 p0 h1, List.map_cons, make_heartbeat_sq,
      make_all_loop_map_sq hb jitter p0 t0 1 hs, if_pos h1, List.range'_succ]

/-- Witness for C2 at `D = 20`, `I = 5`, `R = 2`, `p0 = 0`, zero jitter
(`N = ⌈20/10⌉ + 1 = 3`). -/
theorem C2_sequence_numbers_exact_witness :
    (make_all (exampleHB 20 5 2) (fun _ => 0) 0 0).map (·.sq) =
      List.range' 1
        ((⌈((exampleHB 20 5 2).duration - 0) /
            ((exampleHB 20 5 2).interval * (exampleHB 20 5 2).playback_rate)⌉).toNat +
          if (exampleHB 20 5 2).playback_rate ≠ 1 then 1 else 0) :=
  C2_sequence_numbers_exact (exampleHB 20 5 2) (fun _ => 0) 0 0
    (by norm_num [exampleHB]) (by norm_num [exampleHB]) (by norm_num [exampleHB])
    le_rfl (by norm_num [exampleHB])

/-- C10: if the start progress equals the duration, the loop body of
`Heartbeat.make_all` never executes: with playback rate 1 the emitted
sequence is empty, with rate ≠ 1 it is the single `ratechange` record with
progress 0, and in either case no emitted record has progress equal to the
duration. -/
theorem C10_start_at_duration (hb : Heartbeat) (jitter : ℕ → ℚ) (t0 : ℚ)
    (hD : 0 < hb.duration) :
    (hb.playback_rate = 1 → make_all hb jitter t0 hb.duration = []) ∧
    (hb.playback_rate ≠ 1 →
      make_all hb jitter t0 hb.duration = [make_heartbeat hb .ratechange 0 t0 1]) ∧
    ∀ r ∈ make_all hb jitter t0 hb.duration, r.cp ≠ hb.duration := by
  have hnil : ∀ sq, make_all_loop hb jitter hb.duration t0 sq = [] :=
    fun sq => make_all_loop_eq_nil hb jitter hb.duration t0 sq le_rfl
  refine ⟨?_, ?_, ?_⟩
  · intro h1
    rw [make_all_eq_rate_one hb jitter t0 hb.duration h1, hnil]
  · intro h1
    rw [make_all_eq_rate_ne hb jitter t0 hb.duration h1, hnil]
  · intro r hr
    by_cases h1 : hb.playback_rate = 1
    · rw [make_all_eq_rate_one hb jitter t0 hb.duration h1, hnil] at hr
      exact absurd hr (List.not_mem_nil r)
    · rw [make_all_eq_rate_ne hb jitter t0 hb.duration h1, hnil] at hr
      rcases List.mem_cons.mp hr with rfl | hr
      · simp only [make_heartbeat_cp]
        exact hD.ne
      · exact absurd hr (List.not_mem_nil r)

/-- Worked example: `D = 12`, `I = 5`, `R = 1`, `p0 = 0` gives progress
values `[5, 10, 12]` (the last step clamped), for any jitter draws and any
starting timestamp. -/
theorem example_cp_12_5_1 (j : ℕ → ℚ) (t : ℚ) :
    (make_all (exampleHB 12 5 1) j t 0).map (·.cp) = [5, 10, 12] := by
  rw [make_all_eq_rate_one _ _ _ _ (by norm_num [exampleHB])]
  rw [make_all_loop_eq_cons _ _ _ _ _ (by norm_num [exampleHB]) (by norm_num [exampleHB])]
  norm_num [exampleHB, min_def]
  rw [make_all_loop_eq_cons _ _ _ _ _ (by norm_num) (by norm_num)]
  norm_num [min_def]
  rw [make_all_loop_eq_cons _ _ _ _ _ (by norm_num) (by norm_num)]
  norm_num [min_def]
  rw [make_all_loop_eq_nil _ _ _ _ _ (by norm_num)]

/-- Worked example: `D = 20`, `I = 5`, `R = 2`, `p0 = 0` gives the records
`[ratechange@0, heartbeat@10, heartbeat@20]`, for any jitter draws and any
starting timestamp. -/
theorem example_records_20_5_2 (j : ℕ → ℚ) (t : ℚ) :
    (make_all (exampleHB 20 5 2) j t 0).map (fun r => (r.et, r.cp)) =
      [(EventKind.ratechange, 0), (EventKind.heartbeat, 10),
        (EventKind.heartbeat, 20)] := by
  rw [make_all_eq_rate_ne _ _ _ _ (by norm_num [exampleHB])]
  rw [make_all_loop_eq_cons _ _ _ _ _ (by norm_num [exampleHB]) (by norm_num [exampleHB])]
  norm_num [exampleHB, min_def]
  rw [make_all_loop_eq_cons _ _ _ _ _ (by norm_num) (by norm_num)]
  norm_num [min_def]
  rw [make_all_loop_eq_nil _ _ _ _ _ (by norm_num)]

/-- Worked example: resuming at `p0 = 15` with `D = 20`, `I = 5`, `R = 1`
gives the single record with progress `[20]`, for any jitter draws and any
starting timestamp. -/
theorem example_cp_20_5_1_resume (j : ℕ → ℚ) (t : ℚ) :
    (make_all (exampleHB 20 5 1) j t 15).map (·.cp) = [20] := by
  rw [make_all_eq_rate_one _ _ _ _ (by norm_num [exampleHB])]
  rw [make_all_loop_eq_cons _ _ _ _ _ (by norm_num [exampleHB]) (by norm_num [exampleHB])]
  norm_num [exampleHB, min_def]
  rw [make_all_loop_eq_nil _ _ _ _ _ (by norm_num)]

/-- C3, counterexample to the claim as stated.  The claim says every record
after the leading `ratechange` advances progress from its predecessor by
exactly `I * R` (clamped to `D`).  At `D = 20`, `I = 5`, `R = 2`,
`p0 = 5` — an input the claim permits, since `0 ≤ p0 < D` — the code emits
progress values `[0, 15, 20]`: the first heartbeat jumps from the
`ratechange` record's progress `0` to `p0 + I * R = 15`, not to
`min D (0 + I * R) = 10`, so the claimed step relation fails. -/
theorem C3_counterexample_step_after_ratechange :
    ((make_all (exampleHB 20 5 2) (fun _ => 0) 0 5).map (·.cp) = [0, 15, 20]) ∧
    ¬ (make_all (exampleHB 20 5 2) (fun _ => 0) 0 5).Chain' (fun a b =>
        b.cp = min (exampleHB 20 5 2).duration
          (a.cp + (exampleHB 20 5 2).interval * (exampleHB 20 5 2).playback_rate)) := by
  have hmap : (make_all (exampleHB 20 5 2) (fun _ => 0) 0 5).map (·.cp) = [0, 15, 20] := by
    rw [make_all_eq_rate_ne _ _ _ _ (by norm_num [exampleHB])]
    rw [make_all_loop_eq_cons _ _ _ _ _ (by norm_num [exampleHB]) (by norm_num [exampleHB])]
    norm_num [exampleHB, min_def]
    rw [make_all_loop_eq_cons _ _ _ _ _ (by norm_num) (by norm_num)]
    norm_num [min_def]
    rw [make_all_loop_eq_nil _ _ _ _ _ (by norm_num)]
  refine ⟨hmap, ?_⟩
  intro hch
  have h2 : ((make_all (exampleHB 20 5 2) (fun _ => 0) 0 5).map (·.cp)).Chain'
      (fun x y => y = min (exampleHB 20 5 2).duration
        (x + (exampleHB 20 5 2).interval * (exampleHB 20 5 2).playback_rate)) :=
    (List.chain'_map _).mpr hch
  rw [hmap] at h2
  have h3 := (List.chain'_cons.mp h2).1
  norm_num [exampleHB, min_def] at h3

/-- C3 (amended): iff the playback rate differs from 1, the first emitted
record is a `ratechange` with progress 0, the starting timestamp and
sequence number 1; every subsequent record is a `heartbeat`; each heartbeat
advances the progress of the *previous heartbeat* (or the start progress
`p0`, for the first heartbeat — this is the amendment: the record following
a `ratechange` resumes from `p0`, not from the `ratechange`'s progress 0)
by exactly `I * R`, clamped to `D` on the final step; and the three worked
examples of the claim hold. -/
theorem C3_amended_leading_record_and_steps (hb : Heartbeat) (jitter : ℕ → ℚ)
    (t0 p0 : ℚ) (hD : 0 < hb.duration) (hI : 0 < hb.interval)
    (hR : 0 < hb.playback_rate) (hp0 : 0 ≤ p0) (hp0D : p0 < hb.duration) :
    (hb.playback_rate ≠ 1 →
      (make_all hb jitter t0 p0).head? = some (make_heartbeat hb .ratechange 0 t0 1) ∧
      (make_heartbeat hb .ratechange 0 t0 1).et = EventKind.ratechange ∧
      (make_heartbeat hb .ratechange 0 t0 1).cp = 0 ∧
      (make_heartbeat hb .ratechange 0 t0 1).ts = pyInt (t0 * 1000) ∧
      (make_heartbeat hb .ratechange 0 t0 1).sq = 1) ∧
    (hb.playback_rate = 1 →
      ∀ r ∈ make_all hb jitter t0 p0, r.et = EventKind.heartbeat) ∧
    (∀ r ∈ (make_all hb jitter t0 p0).tail, r.et = EventKind.heartbeat) ∧
    (make_all hb jitter t0 p0).Chain' (fun a b =>
      b.cp = min hb.duration ((if a.et = EventKind.ratechange then p0 else a.cp) +
        hb.interval * hb.playback_rate)) ∧
    (∀ j t, (make_all (exampleHB 12 5 1) j t 0).map (·.cp) = [5, 10, 12]) ∧
    (∀ j t, (make_all (exampleHB 20 5 2) j t 0).map (fun r => (r.et, r.cp)) =
      [(EventKind.ratechange, 0), (EventKind.heartbeat, 10),
        (EventKind.heartbeat, 20)]) ∧
    (∀ j t, (make_all (exampleHB 20 5 1) j t 15).map (·.cp) = [20]) := by
  have hs : 0 < hb.interval * hb.playback_rate := mul_pos hI hR
  refine ⟨?_, ?_, ?_, ?_, example_cp_12_5_1, example_records_20_5_2,
    example_cp_20_5_1_resume⟩
  · intro h1
    rw [make_all_eq_rate_ne hb jitter t0 p0 h1]
    exact ⟨by simp, rfl, rfl, rfl, rfl⟩
  · intro h1 r hr
    rw [make_all_eq_rate_one hb jitter t0 p0 h1] at hr
    exact make_all_loop_et hb jitter p0 t0 0 r hr
  · intro r hr
    by_cases h1 : hb.playback_rate = 1
    · rw [make_all_eq_rate_one hb jitter t0 p0 h1] at hr
      exact make_all_loop_et hb jitter p0 t0 0 r (List.mem_of_mem_tail hr)
    · rw [make_all_eq_rate_ne hb jitter t0 p0 h1, List.tail_cons] at hr
      exact make_all_loop_et hb jitter p0 t0 1 r hr
  · by_cases h1 : hb.playback_rate = 1
    · rw [make_all_eq_rate_one hb jitter t0 p0 h1]
      exact make_all_loop_chain_step hb jitter p0 t0 0 p0
    · rw [make_all_eq_rate_ne hb jitter t0 p0 h1]
      refine List.chain'_cons'.mpr ⟨?_, make_all_loop_chain_step hb jitter p0 t0 1 p0⟩
      intro y hy
      rw [make_all_loop_eq_cons hb jitter p0 t0 1 hs hp0D] at hy
      simp only [List.head?_cons, Option.mem_def, Option.some_inj] at hy
      subst hy
      simp

/-- Witness for the amended C3 at `D = 20`, `I = 5`, `R = 2`, `p0 = 0`,
zero jitter: the per-record step relation of the amended claim holds on
the produced sequence. -/
theorem C3_amended_leading_record_and_steps_witness :
    (make_all (exampleHB 20 5 2) (fun _ => 0) 0 0).Chain' (fun a b =>
      b.cp = min (exampleHB 20 5 2).duration
        ((if a.et = EventKind.ratechange then 0 else a.cp) +
          (exampleHB 20 5 2).interval * (exampleHB 20 5 2).playback_rate)) :=
  (C3_amended_leading_record_and_steps (exampleHB 20 5 2) (fun _ => 0) 0 0
    (by norm_num [exampleHB]) (by norm_num [exampleHB]) (by norm_num [exampleHB])
    le_rfl (by norm_num [exampleHB])).2.2.2.1

/-- Witness for C10 at `D = 20`, `I = 5`, `R = 2`, zero jitter. -/
theorem C10_start_at_duration_witness :
    ((exampleHB 20 5 2).playback_rate = 1 →
      make_all (exampleHB 20 5 2) (fun _ => 0) 0 (exampleHB 20 5 2).duration = []) ∧
    ((exampleHB 20 5 2).playback_rate ≠ 1 →
      make_all (exampleHB 20 5 2) (fun _ => 0) 0 (exampleHB 20 5 2).duration =
        [make_heartbeat (exampleHB 20 5 2) .ratechange 0 0 1]) ∧
    ∀ r ∈ make_all (exampleHB 20 5 2) (fun _ => 0) 0 (exampleHB 20 5 2).duration,
      r.cp ≠ (exampleHB 20 5 2).duration :=
  C10_start_at_duration (exampleHB 20 5 2) (fun _ => 0) 0 (by norm_num [exampleHB])

/-! ### Batching lemmas -/

theorem batched_nil {α : Type} (n : ℕ) : batched ([] : List α) n = [] := by
  rw [batched.eq_def]
  split <;> rfl

theorem batched_cons {α : Type} (x : α) (xs : List α) (n : ℕ) (hn : 0 < n) :
    batched (x :: xs) n = (x :: xs).take n :: batched ((x :: xs).drop n) n := by
  rw [batched.eq_def, dif_pos hn]

theorem batched_cons' {α : Type} (l : List α) (n : ℕ) (hn : 0 < n) (hl : l ≠ []) :
    batched l n = l.take n :: batched (l.drop n) n := by
  cases l with
  | nil => exact absurd rfl hl
  | cons x xs => exact batched_cons x xs n hn

theorem batched_flatten {α : Type} (l : List α) (n : ℕ) (hn : 0 < n) :
    (batched l n).flatten = l := by
  refine batched.induct (fun l n => 0 < n → (batched l n).flatten = l) ?_ ?_ ?_ l n hn
  · intro n hn2 _
    rw [batched_nil]
    rfl
  · intro n hn2 x xs hlt ih _
    rw [batched_cons x xs n hn2, List.flatten_cons, ih hn2, List.take_append_drop]
  · intro l n hn' hn2
    exact absurd hn2 hn'

theorem batched_length_le {α : Type} (l : List α) (n : ℕ) (hn : 0 < n) :
    ∀ b ∈ batched l n, b.length ≤ n ∧ b ≠ [] := by
  refine batched.induct (fun l n => 0 < n → ∀ b ∈ batched l n, b.length ≤ n ∧ b ≠ [])
    ?_ ?_ ?_ l n hn
  · intro n hn2 _ b hb
    rw [batched_nil] at hb
    exact absurd hb (List.not_mem_nil b)
  · intro n hn2 x xs hlt ih _ b hb
    rw [batched_cons x xs n hn2] at hb
    rcases List.mem_cons.mp hb with rfl | hb
    · refine ⟨List.length_take_le _ _, ?_⟩
      obtain ⟨m, rfl⟩ : ∃ m, n = m + 1 := ⟨n - 1, by omega⟩
      simp [List.take_succ_cons]
    · exact ih hn2 b hb
  · intro l n hn' hn2
    exact absurd hn2 hn'

theorem batched_dropLast_length {α : Type} (l : List α) (n : ℕ) (hn : 0 < n) :
    ∀ b ∈ (batched l n).dropLast, b.length = n := by
  refine batched.induct (fun l n => 0 < n → ∀ b ∈ (batched l n).dropLast, b.length = n)
    ?_ ?_ ?_ l n hn
  · intro n hn2 _ b hb
    rw [batched_nil] at hb
    simp at hb
  · intro n hn2 x xs hlt ih _ b hb
    rw [batched_cons x xs n hn2] at hb
    rcases heq : batched ((x :: xs).drop n) n with _ | ⟨c, cs⟩
    · rw [heq] at hb
      simp at hb
    · rw [heq, List.dropLast_cons₂] at hb
      rcases List.mem_cons.mp hb with rfl | hb2
      · have hdrop : (x :: xs).drop n ≠ [] := by
          intro h0
          rw [h0, batched_nil] at heq
          exact (List.cons_ne_nil c cs) heq.symm
        have hlen : n ≤ (x :: xs).length := by
          by_contra hgt
          push_neg at hgt
          exact hdrop (List.drop_eq_nil_of_le (by omega))
        rw [List.length_take]
        omega
      · have := ih hn2 b
        rw [heq] at this
        exact this hb2
  · intro l n hn' hn2
    exact absurd hn2 hn'

theorem batched_of_length_14 {α : Type} (l : List α) (hlen : l.length = 14) :
    (batched l 6).map List.length = [6, 6, 2] := by
  have h1 : l ≠ [] := by
    intro h
    rw [h] at hlen
    simp at hlen
  rw [batched_cons' l 6 (by norm_num) h1]
  have hd1 : (l.drop 6).length = 8 := by
    rw [List.length_drop, hlen]
  have h2 : l.drop 6 ≠ [] := by
    intro h
    rw [h] at hd1
    simp at hd1
  rw [batched_cons' _ 6 (by norm_num) h2]
  have hd2 : ((l.drop 6).drop 6).length = 2 := by
    rw [List.length_drop, hd1]
  have h3 : (l.drop 6).drop 6 ≠ [] := by
    intro h
    rw [h] at hd2
    simp at hd2
  rw [batched_cons' _ 6 (by norm_num) h3]
  have hd3 : ((l.drop 6).drop 6).drop 6 = [] := List.drop_eq_nil_of_le (by omega)
  rw [hd3, batched_nil]
  simp only [List.map_cons, List.map_nil, List.length_take, hlen, hd1, hd2]
  norm_num

/-- C4: the batching of `send_heartbeats` (`itertools.batched(heartbeats, 6)`)
splits any sequencer output into consecutive, order-preserving, non-empty
batches of at most 6 records, with only the last batch possibly shorter;
for 14 records the batch sizes are `[6, 6, 2]`. -/
theorem C4_batches_of_at_most_six (l : List HeartbeatDict) :
    (batched l 6).flatten = l ∧
    (∀ b ∈ batched l 6, b.length ≤ 6 ∧ b ≠ []) ∧
    (∀ b ∈ (batched l 6).dropLast, b.length = 6) ∧
    (l.length = 14 → (batched l 6).map List.length = [6, 6, 2]) :=
  ⟨batched_flatten l 6 (by norm_num), batched_length_le l 6 (by norm_num),
    batched_dropLast_length l 6 (by norm_num),
    fun h => batched_of_length_14 l h⟩

/-- Witness for C4 on a concrete 14-record list. -/
theorem C4_batches_of_at_most_six_witness :
    (batched (List.replicate 14 (make_heartbeat (exampleHB 20 5 2) .heartbeat 0 0 1)) 6).flatten =
      List.replicate 14 (make_heartbeat (exampleHB 20 5 2) .heartbeat 0 0 1) ∧
    (batched (List.replicate 14 (make_heartbeat (exampleHB 20 5 2) .heartbeat 0 0 1)) 6).map
      List.length = [6, 6, 2] :=
  ⟨(C4_batches_of_at_most_six _).1, (C4_batches_of_at_most_six _).2.2.2 (by simp)⟩

/-! ### Scheduler pacing -/

/-- C5: in the batch loop of `send_heartbeats`, every submission call for a
batch happens at a wall-clock instant no earlier than the batch's due time
(the sleep before it lasts exactly `max(0, due_time - now)`), and when the
due time is already past on arrival the submission happens with zero
additional delay. -/
theorem C5_no_submit_before_due (batches : List (List HeartbeatDict)) (now : ℚ)
    (delay : ℕ → ℚ) :
    ∀ e ∈ schedTrace batches now delay,
      e.submitAt = e.arrival + max 0 (dueTime e.batch - e.arrival) ∧
      dueTime e.batch ≤ e.submitAt ∧
      (dueTime e.batch ≤ e.arrival → e.submitAt = e.arrival) := by
  induction batches generalizing now delay with
  | nil =>
    intro e he
    simp [schedTrace] at he
  | cons b bs ih =>
    intro e he
    simp only [schedTrace] at he
    rcases List.mem_cons.mp he with rfl | he
    · refine ⟨rfl, ?_, ?_⟩
      · have hmax := le_max_right (0 : ℚ) (dueTime b - now)
        show dueTime b ≤ now + max 0 (dueTime b - now)
        linarith
      · intro hle
        show now + max 0 (dueTime b - now) = now
        rw [max_eq_left (by linarith)]
        ring
    · exact ih _ _ e he

/-- Witness for C5 on a one-batch trace starting at wall-clock 0. -/
theorem C5_no_submit_before_due_witness :
    dueTime (SchedEvent.mk [make_heartbeat (exampleHB 20 5 2) .heartbeat 10 30 1] 0
        (0 + max 0 (dueTime [make_heartbeat (exampleHB 20 5 2) .heartbeat 10 30 1] - 0))).batch ≤
      (SchedEvent.mk [make_heartbeat (exampleHB 20 5 2) .heartbeat 10 30 1] 0
        (0 + max 0 (dueTime [make_heartbeat (exampleHB 20 5 2) .heartbeat 10 30 1] - 0))).submitAt :=
  (C5_no_submit_before_due [[make_heartbeat (exampleHB 20 5 2) .heartbeat 10 30 1]] 0
    (fun _ => 0) _ (by simp [schedTrace])).2.1

/-! ### Retry loop -/

theorem retryRun_eq_found (f : ℕ → Bool) (k : ℕ) (h : ∃ m, f (k + m) = true)
    (hk : f k = true) : retryRun f k h = (1, 0) := by
  rw [retryRun.eq_def, dif_pos hk]

theorem retryRun_eq_step (f : ℕ → Bool) (k : ℕ) (h : ∃ m, f (k + m) = true)
    (h' : ∃ m, f (k + 1 + m) = true) (hk : ¬ f k = true) :
    retryRun f k h =
      ((retryRun f (k + 1) h').1 + 1, (retryRun f (k + 1) h').2 + 1) := by
  rw [retryRun.eq_def, dif_neg hk]

theorem find_succ_of_first_false (f : ℕ → Bool) (k : ℕ)
    (h : ∃ m, f (k + m) = true) (h' : ∃ m, f (k + 1 + m) = true)
    (hk : ¬ f k = true) : Nat.find h = Nat.find h' + 1 := by
  have hspec : f (k + Nat.find h) = true := Nat.find_spec h
  have hspec' : f (k + 1 + Nat.find h') = true := Nat.find_spec h'
  have hne : Nat.find h ≠ 0 := by
    intro h0
    rw [h0, Nat.add_zero] at hspec
    exact hk hspec
  have hle1 : Nat.find h ≤ Nat.find h' + 1 := Nat.find_le (by
    have harith : k + (Nat.find h' + 1) = k + 1 + Nat.find h' := by omega
    rw [harith]
    exact hspec')
  have hle2 : Nat.find h' ≤ Nat.find h - 1 := Nat.find_le (by
    have harith : k + 1 + (Nat.find h - 1) = k + Nat.find h := by omega
    rw [harith]
    exact hspec)
  omega

theorem retryRun_fst (f : ℕ → Bool) (k : ℕ) (h : ∃ m, f (k + m) = true) :
    (retryRun f k h).1 = Nat.find h + 1 := by
  refine retryRun.induct f (fun k h => (retryRun f k h).1 = Nat.find h + 1) ?_ ?_ k h
  · intro k h hk
    rw [retryRun_eq_found f k h hk]
    have h0 : Nat.find h = 0 := Nat.find_eq_zero h |>.mpr (by
      rw [Nat.add_zero]
      exact hk)
    rw [h0]
  · intro k h hk h' hdec ih
    rw [retryRun_eq_step f k h h' hk, find_succ_of_first_false f k h h' hk]
    simp [ih]

theorem retryRun_snd (f : ℕ → Bool) (k : ℕ) (h : ∃ m, f (k + m) = true) :
    (retryRun f k h).2 = Nat.find h := by
  refine retryRun.induct f (fun k h => (retryRun f k h).2 = Nat.find h) ?_ ?_ k h
  · intro k h hk
    rw [retryRun_eq_found f k h hk]
    have h0 : Nat.find h = 0 := Nat.find_eq_zero h |>.mpr (by
      rw [Nat.add_zero]
      exact hk)
    rw [h0]
  · intro k h hk h' hdec ih
    rw [retryRun_eq_step f k h h' hk, find_succ_of_first_false f k h h' hk]
    simp [ih]

theorem runBatches_count (envs : List BatchEnv) (disp : ℚ × ℚ) :
    (runBatches envs disp).1 = envs.length := by
  induction envs generalizing disp with
  | nil => rfl
  | cons e rest ih =>
    simp [runBatches, ih]

theorem stubTwoFailures_exists : ∃ m, stubTwoFailures (0 + m) = true :=
  ⟨2, by decide⟩

/-- C6: the delivery loop retries a failing batch submission with a fixed
1-second sleep after every failed attempt, until the first success; the
failure is never surfaced to the caller (every batch is delivered and the
session completes); and with a stub that fails twice then succeeds,
delivery takes exactly 3 attempts. -/
theorem C6_retry_until_success (f : ℕ → Bool) (k : ℕ)
    (h : ∃ m, f (k + m) = true) (envs : List BatchEnv) (disp : ℚ × ℚ) :
    (1 ≤ (retryRun f k h).1 ∧
      f (k + ((retryRun f k h).1 - 1)) = true ∧
      (∀ i, i + 1 < (retryRun f k h).1 → f (k + i) = false) ∧
      (retryRun f k h).2 = (retryRun f k h).1 - 1) ∧
    (runBatches envs disp).1 = envs.length ∧
    (retryRun stubTwoFailures 0 stubTwoFailures_exists).1 = 3 := by
  refine ⟨⟨?_, ?_, ?_, ?_⟩, runBatches_count envs disp, ?_⟩
  · rw [retryRun_fst]
    omega
  · rw [retryRun_fst]
    simpa using Nat.find_spec h
  · intro i hi
    rw [retryRun_fst] at hi
    have hmin := Nat.find_min h (show i < Nat.find h by omega)
    simpa using hmin
  · rw [retryRun_fst, retryRun_snd]
    omega
  · rw [retryRun_fst]
    have h2 : Nat.find stubTwoFailures_exists = 2 := by
      rw [Nat.find_eq_iff]
      exact ⟨by decide, by decide⟩
    rw [h2]

/-- Witness for C6: the stub that fails twice then succeeds needs exactly
3 attempts, and the one-batch session with that stub delivers its batch. -/
theorem C6_retry_until_success_witness :
    (retryRun stubTwoFailures 0 stubTwoFailures_exists).1 = 3 ∧
    (runBatches [envStub] (0, 0)).1 = 1 := by
  obtain ⟨-, hrun, hstub⟩ :=
    C6_retry_until_success stubTwoFailures 0 ⟨2, by decide⟩ [envStub] (0, 0)
  exact ⟨hstub, by simpa using hrun⟩

/-! ### Progress-query failure handling -/

/-- C7: a failed watch-progress query after a batch is non-fatal: the batch
loop still delivers every batch of the session, and on a failed query the
displayed pair is left unchanged while delivery of the remaining batches
proceeds as if the query had not happened. -/
theorem C7_query_failure_nonfatal (envs : List BatchEnv) (disp : ℚ × ℚ) :
    (runBatches envs disp).1 = envs.length ∧
    (∀ d : ℚ × ℚ, updateDisplay d none = d) ∧
    (∀ (e : BatchEnv) (rest : List BatchEnv) (d : ℚ × ℚ), e.query = none →
      (runBatches (e :: rest) d).1 = (runBatches rest d).1 + 1 ∧
      (runBatches (e :: rest) d).2.2 = (runBatches rest d).2.2) := by
  refine ⟨runBatches_count envs disp, fun d => rfl, ?_⟩
  intro e rest d hq
  constructor
  · simp [runBatches, runBatches_count]
  · simp [runBatches, updateDisplay, hq]

/-- Witness for C7 with the concrete failing-query environment. -/
theorem C7_query_failure_nonfatal_witness :
    (runBatches [envStub] (0, 0)).1 = 1 ∧
    (runBatches (envStub :: []) (0, 0)).2.2 = (runBatches [] (0, 0)).2.2 := by
  obtain ⟨hc, hupd, hstep⟩ := C7_query_failure_nonfatal [envStub] (0, 0)
  exact ⟨by simpa using hc, (hstep envStub [] (0, 0) rfl).2⟩

/-! ### Completed videos are skipped -/

/-- C8: a prior watch-progress record reporting completion
(`completed == 1`) makes the per-leaf decision of `main` skip the video,
and no heartbeat submission is ever made for it. -/
theorem C8_completed_skips (wp : WatchProgress) (md pd : ℚ)
    (h : wp.completed = some 1) :
    planSession (some wp) md pd = SessionPlan.skip ∧
    ∀ (envs : List BatchEnv) (disp : ℚ × ℚ),
      sessionSubmitCount (planSession (some wp) md pd) envs disp = 0 := by
  have hplan : planSession (some wp) md pd = SessionPlan.skip := by
    simp [planSession, h]
  refine ⟨hplan, fun envs disp => ?_⟩
  rw [hplan]
  rfl

/-- Witness for C8 with a concrete completed watch-progress record. -/
theorem C8_completed_skips_witness :
    planSession (some wpDone) 20 20 = SessionPlan.skip ∧
    sessionSubmitCount (planSession (some wpDone) 20 20) [envStub] (0, 0) = 0 :=
  ⟨(C8_completed_skips wpDone 20 20 rfl).1,
    (C8_completed_skips wpDone 20 20 rfl).2 [envStub] (0, 0)⟩

/-! ### Orchestrator concurrency gate -/

theorem countP_set {α : Type} (l : List α) (i : ℕ) (a old : α) (p : α → Bool)
    (h : l[i]? = some old) :
    (l.set i a).countP p + (if p old then 1 else 0) =
      l.countP p + (if p a then 1 else 0) := by
  induction l generalizing i with
  | nil => simp at h
  | cons x xs ih =>
    cases i with
    | zero =>
      simp only [List.getElem?_cons_zero, Option.some_inj] at h
      simp only [List.set_cons_zero, List.countP_cons]
      rw [← h]
      rcases Bool.eq_false_or_eq_true (p a) with hpa | hpa <;>
        rcases Bool.eq_false_or_eq_true (p x) with hpx | hpx <;>
          simp [hpa, hpx]
    | succ j =>
      simp only [List.getElem?_cons_succ] at h
      simp only [List.set_cons_succ, List.countP_cons]
      have hrec := ih j h
      omega

theorem streamingCount_le_of_step {M : ℕ} {s s2 : List TaskState}
    (h : OrchStep M s s2) (hle : streamingCount s ≤ M) : streamingCount s2 ≤ M := by
  cases h with
  | start i w hi hM =>
    have hc := countP_set s i (TaskState.streaming w) TaskState.pending isStreaming hi
    simp [isStreaming] at hc
    simp only [streamingCount] at *
    omega
  | work i k hi =>
    have hc := countP_set s i (TaskState.streaming k) (TaskState.streaming (k + 1))
      isStreaming hi
    simp [isStreaming] at hc
    simp only [streamingCount] at *
    omega
  | finish i hi =>
    have hc := countP_set s i TaskState.done (TaskState.streaming 0) isStreaming hi
    simp [isStreaming] at hc
    simp only [streamingCount] at *
    omega
  | fail i k hi =>
    have hc := countP_set s i TaskState.failed (TaskState.streaming k) isStreaming hi
    simp [isStreaming] at hc
    simp only [streamingCount] at *
    omega

theorem streamingCount_replicate_pending (m : ℕ) :
    streamingCount (List.replicate m TaskState.pending) = 0 := by
  rw [streamingCount, List.countP_eq_zero]
  intro a ha
  rw [List.eq_of_mem_replicate ha]
  simp [isStreaming]

theorem streamingCount_le_of_reach {M m : ℕ} {s : List TaskState}
    (h : OrchReach M (List.replicate m TaskState.pending) s) :
    streamingCount s ≤ M := by
  rw [OrchReach] at h
  induction h with
  | refl =>
    rw [streamingCount_replicate_pending]
    exact Nat.zero_le M
  | tail hsteps hstep ih => exact streamingCount_le_of_step hstep ih

/-- C9 (amended): in every state reachable by the orchestrator's
interleaving semantics, (a) at most `M` sessions are in `Streaming`
simultaneously (the semaphore gate); (b) a session failing in `Streaming`
releases exactly its own slot and leaves every other task's state
untouched; (c) whenever `await asyncio.gather` completes and no session has
failed fatally, every session has reached a terminal state.  (As stated the
claim is false: with the default `return_exceptions=False`, `gather`
propagates the first fatal error immediately, before the remaining sessions
reach a terminal state — see the counterexample.) -/
theorem C9_amended_concurrency_gate (M m : ℕ) (s : List TaskState)
    (h : OrchReach M (List.replicate m TaskState.pending) s) :
    streamingCount s ≤ M ∧
    (∀ i k, s[i]? = some (TaskState.streaming k) →
      streamingCount (s.set i TaskState.failed) + 1 = streamingCount s ∧
      ∀ j, j ≠ i → (s.set i TaskState.failed)[j]? = s[j]?) ∧
    ((∀ t ∈ s, t ≠ TaskState.failed) → gatherCompletes s →
      ∀ t ∈ s, isTerminal t = true) := by
  refine ⟨streamingCount_le_of_reach h, ?_, ?_⟩
  · intro i k hi
    constructor
    · have hc := countP_set s i TaskState.failed (TaskState.streaming k) isStreaming hi
      simp [isStreaming] at hc
      simp only [streamingCount]
      omega
    · intro j hj
      exact List.getElem?_set_ne (fun e => hj e.symm)
  · intro hnf hg
    rcases hg with hall | ⟨t, ht, heq⟩
    · exact hall
    · exact absurd heq (hnf t ht)

/-- C9, counterexample to the claim as stated: with limit `M = 2` and two
pending sessions, after session 0 starts streaming and fails fatally, the
`gather` completion condition already holds (a task failed, so the first
exception is propagated at once) while session 1 has not reached a terminal
state — the orchestrator does not wait for every session. -/
theorem C9_counterexample_gather_on_failure :
    OrchReach 2 (List.replicate 2 TaskState.pending)
      [TaskState.failed, TaskState.pending] ∧
    gatherCompletes [TaskState.failed, TaskState.pending] ∧
    ¬ ∀ t ∈ [TaskState.failed, TaskState.pending], isTerminal t = true := by
  refine ⟨?_, ?_, ?_⟩
  · have h1 : OrchStep 2 [TaskState.pending, TaskState.pending]
        [TaskState.streaming 0, TaskState.pending] := by
      have h0 : OrchStep 2 [TaskState.pending, TaskState.pending]
          ([TaskState.pending, TaskState.pending].set 0 (TaskState.streaming 0)) :=
        OrchStep.start [TaskState.pending, TaskState.pending] 0 0 rfl (by decide)
      simpa using h0
    have h2 : OrchStep 2 [TaskState.streaming 0, TaskState.pending]
        [TaskState.failed, TaskState.pending] := by
      have h0 : OrchStep 2 [TaskState.streaming 0, TaskState.pending]
          ([TaskState.streaming 0, TaskState.pending].set 0 TaskState.failed) :=
        OrchStep.fail [TaskState.streaming 0, TaskState.pending] 0 0 rfl
      simpa using h0
    show Relation.ReflTransGen (OrchStep 2) _ _
    exact Relation.ReflTransGen.tail (Relation.ReflTransGen.single h1) h2
  · exact Or.inr ⟨TaskState.failed, by simp, rfl⟩
  · intro hall
    have hp := hall TaskState.pending (by simp)
    simp [isTerminal] at hp

/-- Witness for the amended C9 at the reachable state
`[streaming 0, pending]` with `M = 2`. -/
theorem C9_amended_concurrency_gate_witness :
    streamingCount [TaskState.streaming 0, TaskState.pending] ≤ 2 ∧
    streamingCount ([TaskState.streaming 0, TaskState.pending].set 0 TaskState.failed) + 1 =
      streamingCount [TaskState.streaming 0, TaskState.pending] := by
  have hreach : OrchReach 2 (List.replicate 2 TaskState.pending)
      [TaskState.streaming 0, TaskState.pending] := by
    have h0 : OrchStep 2 [TaskState.pending, TaskState.pending]
        ([TaskState.pending, TaskState.pending].set 0 (TaskState.streaming 0)) :=
      OrchStep.start [TaskState.pending, TaskState.pending] 0 0 rfl (by decide)
    show Relation.ReflTransGen (OrchStep 2) _ _
    exact Relation.ReflTransGen.single (by simpa using h0)
  obtain ⟨h1, h2, h3⟩ := C9_amended_concurrency_gate 2 2 _ hreach
  exact ⟨h1, (h2 0 0 rfl).1⟩

end Yuketang
